import Mathlib

/-!
Shallow embedding of the `tx_processor` payment engine.

Monetary values model `rust_decimal::Decimal` as integers: a value is an
integer number of units at a fixed scale (four-decimal-digit inputs scale to
integers), and the representable range is bounded by the 96-bit mantissa
magnitude `decMax`.  `checked_add` / `checked_sub` fail (return `none`) when
the result leaves that range.

The `Balances` structure and its five operations are translated from
`src/balances.rs`; the checked operations on the generic monetary value
resolve to the `BalanceUpdater` implementation for `NonNegative` in
`src/checked_decimal.rs` (`add` is a checked add, `sub` is a checked sub that
additionally rejects negative results).  The per-client state machine is
translated from `src/client_processor.rs`, the deposit index from
`src/db/in_mem.rs`, and the CSV conversion layer from `src/csv.rs`.
Cross-client routing (`stream_processor.rs`) only demultiplexes records to
per-client processors, so the embedding works with a single client's state.
-/

/-- Magnitude bound of the 96-bit decimal mantissa of `rust_decimal`: 2^96 - 1. -/
def decMax : Int := 79228162514264337593543950335

/-- `Decimal::checked_add`: `none` when the result is not representable. -/
def checkedAdd (a b : Int) : Option Int :=
  if -decMax ≤ a + b ∧ a + b ≤ decMax then some (a + b) else none

/-- `Decimal::checked_sub`: `none` when the result is not representable. -/
def checkedSub (a b : Int) : Option Int :=
  if -decMax ≤ a - b ∧ a - b ≤ decMax then some (a - b) else none

/-- `BalanceUpdater::add` for `NonNegative` (src/checked_decimal.rs): a plain
checked add. -/
def NonNegative.add (a b : Int) : Option Int :=
  checkedAdd a b

/-- `BalanceUpdater::sub` for `NonNegative` (src/checked_decimal.rs): checked
sub, then `is_sign_positive` must hold, i.e. the result must be non-negative. -/
def NonNegative.sub (a b : Int) : Option Int :=
  (checkedSub a b).bind (fun v => if 0 ≤ v then some v else none)

/-- `NonZero::try_from` (src/checked_decimal.rs): succeeds exactly on strictly
positive values. -/
def NonZero.tryFrom (v : Int) : Option Int :=
  if 0 < v then some v else none

/-- `balances::Error` (src/balances.rs). -/
inductive BalancesError
  | arithmeticOverflow
  deriving DecidableEq, Repr

/-- The `Balances` struct of src/balances.rs: it stores `available`, `held`
and a third field `total`. -/
structure Balances where
  available : Int
  held : Int
  total : Int
  deriving DecidableEq, Repr

/-- `Balances::new`: all fields start at zero. -/
def Balances.new : Balances :=
  { available := 0, held := 0, total := 0 }

/-- `Balances::deposit`: `available` is updated first, then `total`; each
assignment happens as soon as its own checked add succeeds, so a failure of
the second add leaves the first assignment committed. -/
def Balances.deposit (b : Balances) (amount : Int) : Balances × Option BalancesError :=
  match NonNegative.add b.available amount with
  | none => (b, some BalancesError.arithmeticOverflow)
  | some av =>
    match NonNegative.add b.total amount with
    | none => ({ b with available := av }, some BalancesError.arithmeticOverflow)
    | some t => ({ b with available := av, total := t }, none)

/-- `Balances::withdrawal`: checked sub on `available`, then on `total`. -/
def Balances.withdrawal (b : Balances) (amount : Int) : Balances × Option BalancesError :=
  match NonNegative.sub b.available amount with
  | none => (b, some BalancesError.arithmeticOverflow)
  | some av =>
    match NonNegative.sub b.total amount with
    | none => ({ b with available := av }, some BalancesError.arithmeticOverflow)
    | some t => ({ b with available := av, total := t }, none)

/-- `Balances::dispute`: checked add on `held`, then checked sub on
`available`. -/
def Balances.dispute (b : Balances) (amount : Int) : Balances × Option BalancesError :=
  match NonNegative.add b.held amount with
  | none => (b, some BalancesError.arithmeticOverflow)
  | some h =>
    match NonNegative.sub b.available amount with
    | none => ({ b with held := h }, some BalancesError.arithmeticOverflow)
    | some av => ({ b with held := h, available := av }, none)

/-- `Balances::resolve`: checked sub on `held`, then checked add on
`available`. -/
def Balances.resolve (b : Balances) (amount : Int) : Balances × Option BalancesError :=
  match NonNegative.sub b.held amount with
  | none => (b, some BalancesError.arithmeticOverflow)
  | some h =>
    match NonNegative.add b.available amount with
    | none => ({ b with held := h }, some BalancesError.arithmeticOverflow)
    | some av => ({ b with held := h, available := av }, none)

/-- `Balances::chargeback`: checked sub on `held`, then on `total`. -/
def Balances.chargeback (b : Balances) (amount : Int) : Balances × Option BalancesError :=
  match NonNegative.sub b.held amount with
  | none => (b, some BalancesError.arithmeticOverflow)
  | some h =>
    match NonNegative.sub b.total amount with
    | none => ({ b with held := h }, some BalancesError.arithmeticOverflow)
    | some t => ({ b with held := h, total := t }, none)

/-- The key-value store backing `AmountCache` (src/db/in_mem.rs), as a map
from transaction id to the stored amount. -/
def AmountMap : Type :=
  Nat → Option Int

/-- An empty `AmountCache`. -/
def AmountMap.empty : AmountMap :=
  fun _ => none

/-- `db::in_mem::Error`. -/
inductive CacheError
  | alreadyExists
  deriving DecidableEq, Repr

/-- `AmountCache::insert` (src/db/in_mem.rs): `HashMap::insert` stores the new
amount unconditionally and returns the previous value; a previous value makes
the call return `AlreadyExists` - after the map was already updated. -/
def AmountCache.insert (m : AmountMap) (id : Nat) (amount : Int) :
    AmountMap × Option CacheError :=
  ((fun k => if k = id then some amount else m k),
    match m id with
    | some _ => some CacheError.alreadyExists
    | none => none)

/-- `AmountCache::get`. -/
def AmountCache.get (m : AmountMap) (id : Nat) : Option Int :=
  m id

/-- The domain transaction (src/transaction.rs), specialised to one client:
the stream processor routes each transaction to the processor of its client,
so the client field plays no role in per-client processing.  Deposit and
withdrawal amounts come from `NonZero` values. -/
inductive Transaction
  | deposit (id : Nat) (amount : Int)
  | withdrawal (id : Nat) (amount : Int)
  | dispute (id : Nat)
  | resolve (id : Nat)
  | chargeback (id : Nat)
  deriving DecidableEq, Repr

/-- `error::Error` (src/error.rs). -/
inductive ProcessError
  | invalidTransaction (id : Nat)
  | duplicatedTransaction (id : Nat)
  | fromBalances (e : BalancesError)
  deriving DecidableEq, Repr

/-- `TransactionProcessingOutcome` (src/client_processor.rs). -/
inductive Outcome
  | lockAccount
  | noAction
  deriving DecidableEq, Repr

/-- The mutable state of a `ClientProcessor` (src/client_processor.rs):
balances, the locked flag, the deposit index `db` and the `disputed` map. -/
structure Client where
  client : Nat
  balances : Balances
  locked : Bool
  db : AmountMap
  disputed : AmountMap

/-- `ClientProcessor::new`: fresh balances, unlocked, empty maps. -/
def Client.new (client : Nat) : Client :=
  { client := client, balances := Balances.new, locked := false,
    db := AmountMap.empty, disputed := AmountMap.empty }

/-- `TransactionProcessor` for `TransactionPayload<Deposit>`: apply the
balance deposit (kept even when the subsequent index insert is rejected),
then insert into the deposit index. -/
def processDeposit (c : Client) (id : Nat) (amount : Int) :
    Client × Except ProcessError Outcome :=
  match Balances.deposit c.balances amount with
  | (b, some _) =>
    ({ c with balances := b }, Except.error (ProcessError.invalidTransaction id))
  | (b, none) =>
    match AmountCache.insert c.db id amount with
    | (m, some _) =>
      ({ c with balances := b, db := m },
        Except.error (ProcessError.duplicatedTransaction id))
    | (m, none) =>
      ({ c with balances := b, db := m }, Except.ok Outcome.noAction)

/-- `TransactionProcessor` for `TransactionPayload<Withdrawal>`. -/
def processWithdrawal (c : Client) (amount : Int) :
    Client × Except ProcessError Outcome :=
  match Balances.withdrawal c.balances amount with
  | (b, some e) =>
    ({ c with balances := b }, Except.error (ProcessError.fromBalances e))
  | (b, none) =>
    ({ c with balances := b }, Except.ok Outcome.noAction)

/-- `TransactionProcessor` for `TransactionPayload<Dispute>`: no-op when the
id is already disputed or unknown to the deposit index; otherwise apply
`Balances::dispute` and on success record the id in `disputed`. -/
def processDispute (c : Client) (id : Nat) :
    Client × Except ProcessError Outcome :=
  match c.disputed id with
  | some _ => (c, Except.ok Outcome.noAction)
  | none =>
    match AmountCache.get c.db id with
    | some amount =>
      match Balances.dispute c.balances amount with
      | (b, some e) =>
        ({ c with balances := b }, Except.error (ProcessError.fromBalances e))
      | (b, none) =>
        let d : AmountMap := fun k => if k = id then some amount else c.disputed k
        ({ c with balances := b, disputed := d }, Except.ok Outcome.noAction)
    | none => (c, Except.ok Outcome.noAction)

/-- `TransactionProcessor` for `TransactionPayload<Resolve>`. -/
def processResolve (c : Client) (id : Nat) :
    Client × Except ProcessError Outcome :=
  match c.disputed id with
  | some amount =>
    match Balances.resolve c.balances amount with
    | (b, some e) =>
      ({ c with balances := b }, Except.error (ProcessError.fromBalances e))
    | (b, none) =>
      let d : AmountMap := fun k => if k = id then none else c.disputed k
      ({ c with balances := b, disputed := d }, Except.ok Outcome.noAction)
  | none => (c, Except.ok Outcome.noAction)

/-- `TransactionProcessor` for `TransactionPayload<Chargeback>`: on success
the disputed entry is removed and `LockAccount` is returned. -/
def processChargeback (c : Client) (id : Nat) :
    Client × Except ProcessError Outcome :=
  match c.disputed id with
  | some amount =>
    match Balances.chargeback c.balances amount with
    | (b, some e) =>
      ({ c with balances := b }, Except.error (ProcessError.fromBalances e))
    | (b, none) =>
      let d : AmountMap := fun k => if k = id then none else c.disputed k
      ({ c with balances := b, disputed := d }, Except.ok Outcome.lockAccount)
  | none => (c, Except.ok Outcome.noAction)

/-- Dispatch of `ClientProcessor::process` over the transaction kind. -/
def processTx (c : Client) (t : Transaction) : Client × Except ProcessError Outcome :=
  match t with
  | Transaction.deposit id amount => processDeposit c id amount
  | Transaction.withdrawal _ amount => processWithdrawal c amount
  | Transaction.dispute id => processDispute c id
  | Transaction.resolve id => processResolve c id
  | Transaction.chargeback id => processChargeback c id

/-- One iteration of `ClientProcessor::crank`: a locked client drops the
transaction silently; otherwise the transaction is processed, a `LockAccount`
outcome sets the locked flag, and errors are logged and ignored (the state as
mutated so far is kept). -/
def applyTx (c : Client) (t : Transaction) : Client :=
  if c.locked then c
  else
    match processTx c t with
    | (c1, Except.ok Outcome.lockAccount) => { c1 with locked := true }
    | (c1, Except.ok Outcome.noAction) => c1
    | (c1, Except.error _) => c1

/-- The `crank` receive loop over a finite incoming transaction list. -/
def runTxs (c : Client) (txs : List Transaction) : Client :=
  txs.foldl applyTx c

/-- `csv::Kind` (src/csv.rs). -/
inductive Kind
  | deposit
  | withdrawal
  | dispute
  | resolve
  | chargeback
  deriving DecidableEq, Repr

/-- `csv::InputRecord`: the raw record with an optional raw decimal amount. -/
structure InputRecord where
  kind : Kind
  client : Nat
  tx : Nat
  amount : Option Int
  deriving DecidableEq, Repr

/-- `csv::Error` (src/csv.rs). -/
inductive CsvError
  | depositMustHaveAmount
  | depositMustHaveNonZeroAmount
  | withdrawalMustHaveAmount
  | withdrawalMustHaveNonZeroAmount
  deriving DecidableEq, Repr

/-- `Transaction::try_from::<InputRecord>` (src/csv.rs): deposits and
withdrawals need a present amount that converts to `NonZero`; control records
carry no amount. -/
def Transaction.tryFromRecord (r : InputRecord) : Except CsvError Transaction :=
  match r.kind with
  | Kind.deposit =>
    match r.amount with
    | none => Except.error CsvError.depositMustHaveAmount
    | some v =>
      match NonZero.tryFrom v with
      | none => Except.error CsvError.depositMustHaveNonZeroAmount
      | some a => Except.ok (Transaction.deposit r.tx a)
  | Kind.withdrawal =>
    match r.amount with
    | none => Except.error CsvError.withdrawalMustHaveAmount
    | some v =>
      match NonZero.tryFrom v with
      | none => Except.error CsvError.withdrawalMustHaveNonZeroAmount
      | some a => Except.ok (Transaction.withdrawal r.tx a)
  | Kind.dispute => Except.ok (Transaction.dispute r.tx)
  | Kind.resolve => Except.ok (Transaction.resolve r.tx)
  | Kind.chargeback => Except.ok (Transaction.chargeback r.tx)

/-- `csv::OutputRecord`. -/
structure OutputRecord where
  client : Nat
  available : Int
  held : Int
  total : Int
  locked : Bool
  deriving DecidableEq, Repr

/-- `OutputRecord::try_from::<ClientState>` (src/csv.rs): the emitted total is
`available().add(held())` computed from the snapshot; on overflow no record
is produced. -/
def OutputRecord.tryFrom (c : Client) : Option OutputRecord :=
  match NonNegative.add c.balances.available c.balances.held with
  | none => none
  | some t =>
    some { client := c.client, available := c.balances.available,
           held := c.balances.held, total := t, locked := c.locked }

/-- The record-handling step of `StreamProcessor::process`: a record whose
conversion fails is skipped (logged), leaving the client state unchanged. -/
def applyInputRecord (c : Client) (r : InputRecord) : Client :=
  match Transaction.tryFromRecord r with
  | Except.error _ => c
  | Except.ok t => applyTx c t

/-- Strict positivity of the amounts carried by deposit and withdrawal
transactions; `NonZero` conversion guarantees it for every converted record. -/
def txAmountPos : Transaction → Prop
  | Transaction.deposit _ a => 0 < a
  | Transaction.withdrawal _ a => 0 < a
  | Transaction.dispute _ => True
  | Transaction.resolve _ => True
  | Transaction.chargeback _ => True

instance : DecidablePred txAmountPos := fun t =>
  match t with
  | Transaction.deposit _ a => inferInstanceAs (Decidable (0 < a))
  | Transaction.withdrawal _ a => inferInstanceAs (Decidable (0 < a))
  | Transaction.dispute _ => inferInstanceAs (Decidable True)
  | Transaction.resolve _ => inferInstanceAs (Decidable True)
  | Transaction.chargeback _ => inferInstanceAs (Decidable True)

/-- The ids of the deposit transactions of a list, in order. -/
def depositIds : List Transaction → List Nat
  | [] => []
  | Transaction.deposit id _ :: ts => id :: depositIds ts
  | Transaction.withdrawal _ _ :: ts => depositIds ts
  | Transaction.dispute _ :: ts => depositIds ts
  | Transaction.resolve _ :: ts => depositIds ts
  | Transaction.chargeback _ :: ts => depositIds ts

theorem decMax_nonneg : (0 : Int) ≤ decMax := by decide

theorem nnAdd_some {a b v : Int} (h : NonNegative.add a b = some v) : v = a + b := by
  unfold NonNegative.add checkedAdd at h
  split at h
  · exact (Option.some_inj.mp h).symm
  · exact absurd h (by simp)

theorem nnAdd_bound {a b v : Int} (h : NonNegative.add a b = some v) :
    -decMax ≤ v ∧ v ≤ decMax := by
  unfold NonNegative.add checkedAdd at h
  split at h
  next hin => exact (Option.some_inj.mp h) ▸ hin
  · exact absurd h (by simp)

theorem nnAdd_of {a b : Int} (h1 : -decMax ≤ a + b) (h2 : a + b ≤ decMax) :
    NonNegative.add a b = some (a + b) := by
  unfold NonNegative.add checkedAdd
  simp [h1, h2]

theorem nnSub_some {a b v : Int} (h : NonNegative.sub a b = some v) :
    v = a - b ∧ 0 ≤ v := by
  unfold NonNegative.sub checkedSub at h
  split at h
  · simp only [Option.some_bind] at h
    split at h
    next hv => exact ⟨(Option.some_inj.mp h).symm, (Option.some_inj.mp h) ▸ hv⟩
    · exact absurd h (by simp)
  · exact absurd h (by simp)

theorem nnSub_nonneg {a b v : Int} (h : NonNegative.sub a b = some v) : 0 ≤ v :=
  (nnSub_some h).2

theorem nnSub_of {a b : Int} (h1 : 0 ≤ a - b) (h2 : a - b ≤ decMax) :
    NonNegative.sub a b = some (a - b) := by
  have h0 : -decMax ≤ a - b := le_trans (by simpa using neg_nonpos_of_nonneg decMax_nonneg) h1
  unfold NonNegative.sub checkedSub
  simp [h0, h1, h2]

theorem nnSub_none_of_lt {a b : Int} (h : a < b) : NonNegative.sub a b = none := by
  unfold NonNegative.sub checkedSub
  split
  · simp only [Option.some_bind]
    have : ¬ (0 : Int) ≤ a - b := by omega
    simp [this]
  · simp

/-- Case analysis for `Balances.deposit`: either the first add fails and
nothing changes, or the second fails with the first committed, or both
commit. -/
theorem deposit_cases (b : Balances) (a : Int) :
    (NonNegative.add b.available a = none ∧
      Balances.deposit b a = (b, some BalancesError.arithmeticOverflow)) ∨
    (∃ av, NonNegative.add b.available a = some av ∧ NonNegative.add b.total a = none ∧
      Balances.deposit b a = ({ b with available := av }, some BalancesError.arithmeticOverflow)) ∨
    (∃ av t, NonNegative.add b.available a = some av ∧ NonNegative.add b.total a = some t ∧
      Balances.deposit b a = ({ b with available := av, total := t }, none)) := by
  unfold Balances.deposit
  rcases h1 : NonNegative.add b.available a with _ | av
  · exact Or.inl ⟨rfl, rfl⟩
  · rcases h2 : NonNegative.add b.total a with _ | t
    · exact Or.inr (Or.inl ⟨av, rfl, rfl, rfl⟩)
    · exact Or.inr (Or.inr ⟨av, t, rfl, rfl, rfl⟩)

/-- Case analysis for `Balances.withdrawal`. -/
theorem withdrawal_cases (b : Balances) (a : Int) :
    (NonNegative.sub b.available a = none ∧
      Balances.withdrawal b a = (b, some BalancesError.arithmeticOverflow)) ∨
    (∃ av, NonNegative.sub b.available a = some av ∧ NonNegative.sub b.total a = none ∧
      Balances.withdrawal b a = ({ b with available := av }, some BalancesError.arithmeticOverflow)) ∨
    (∃ av t, NonNegative.sub b.available a = some av ∧ NonNegative.sub b.total a = some t ∧
      Balances.withdrawal b a = ({ b with available := av, total := t }, none)) := by
  unfold Balances.withdrawal
  rcases h1 : NonNegative.sub b.available a with _ | av
  · exact Or.inl ⟨rfl, rfl⟩
  · rcases h2 : NonNegative.sub b.total a with _ | t
    · exact Or.inr (Or.inl ⟨av, rfl, rfl, rfl⟩)
    · exact Or.inr (Or.inr ⟨av, t, rfl, rfl, rfl⟩)

/-- Case analysis for `Balances.dispute`: on a failing second step the `held`
update stays committed. -/
theorem dispute_cases (b : Balances) (a : Int) :
    (NonNegative.add b.held a = none ∧
      Balances.dispute b a = (b, some BalancesError.arithmeticOverflow)) ∨
    (∃ h, NonNegative.add b.held a = some h ∧ NonNegative.sub b.available a = none ∧
      Balances.dispute b a = ({ b with held := h }, some BalancesError.arithmeticOverflow)) ∨
    (∃ h av, NonNegative.add b.held a = some h ∧ NonNegative.sub b.available a = some av ∧
      Balances.dispute b a = ({ b with held := h, available := av }, none)) := by
  unfold Balances.dispute
  rcases h1 : NonNegative.add b.held a with _ | h
  · exact Or.inl ⟨rfl, rfl⟩
  · rcases h2 : NonNegative.sub b.available a with _ | av
    · exact Or.inr (Or.inl ⟨h, rfl, rfl, rfl⟩)
    · exact Or.inr (Or.inr ⟨h, av, rfl, rfl, rfl⟩)

/-- Case analysis for `Balances.resolve`. -/
theorem resolve_cases (b : Balances) (a : Int) :
    (NonNegative.sub b.held a = none ∧
      Balances.resolve b a = (b, some BalancesError.arithmeticOverflow)) ∨
    (∃ h, NonNegative.sub b.held a = some h ∧ NonNegative.add b.available a = none ∧
      Balances.resolve b a = ({ b with held := h }, some BalancesError.arithmeticOverflow)) ∨
    (∃ h av, NonNegative.sub b.held a = some h ∧ NonNegative.add b.available a = some av ∧
      Balances.resolve b a = ({ b with held := h, available := av }, none)) := by
  unfold Balances.resolve
  rcases h1 : NonNegative.sub b.held a with _ | h
  · exact Or.inl ⟨rfl, rfl⟩
  · rcases h2 : NonNegative.add b.available a with _ | av
    · exact Or.inr (Or.inl ⟨h, rfl, rfl, rfl⟩)
    · exact Or.inr (Or.inr ⟨h, av, rfl, rfl, rfl⟩)

/-- Case analysis for `Balances.chargeback`. -/
theorem chargeback_cases (b : Balances) (a : Int) :
    (NonNegative.sub b.held a = none ∧
      Balances.chargeback b a = (b, some BalancesError.arithmeticOverflow)) ∨
    (∃ h, NonNegative.sub b.held a = some h ∧ NonNegative.sub b.total a = none ∧
      Balances.chargeback b a = ({ b with held := h }, some BalancesError.arithmeticOverflow)) ∨
    (∃ h t, NonNegative.sub b.held a = some h ∧ NonNegative.sub b.total a = some t ∧
      Balances.chargeback b a = ({ b with held := h, total := t }, none)) := by
  unfold Balances.chargeback
  rcases h1 : NonNegative.sub b.held a with _ | h
  · exact Or.inl ⟨rfl, rfl⟩
  · rcases h2 : NonNegative.sub b.total a with _ | t
    · exact Or.inr (Or.inl ⟨h, rfl, rfl, rfl⟩)
    · exact Or.inr (Or.inr ⟨h, t, rfl, rfl, rfl⟩)

/-- The deposit-index map after an `AmountCache::insert` of `a` at `id`. -/
def mapInsert (m : AmountMap) (id : Nat) (a : Int) : AmountMap :=
  fun k => if k = id then some a else m k

/-- The map after removing `id`, as done on resolve and chargeback. -/
def mapRemove (m : AmountMap) (id : Nat) : AmountMap :=
  fun k => if k = id then none else m k

/-- Full case analysis of `processDeposit`: balance failure (state keeps the
partial balance mutation), duplicate id (index entry replaced anyway), or
success. -/
theorem processDeposit_cases (c : Client) (id : Nat) (a : Int) :
    (∃ b, Balances.deposit c.balances a = (b, some BalancesError.arithmeticOverflow) ∧
      processDeposit c id a =
        ({ c with balances := b }, Except.error (ProcessError.invalidTransaction id))) ∨
    (∃ b old, Balances.deposit c.balances a = (b, none) ∧ c.db id = some old ∧
      processDeposit c id a =
        ({ c with balances := b, db := mapInsert c.db id a },
          Except.error (ProcessError.duplicatedTransaction id))) ∨
    (∃ b, Balances.deposit c.balances a = (b, none) ∧ c.db id = none ∧
      processDeposit c id a =
        ({ c with balances := b, db := mapInsert c.db id a }, Except.ok Outcome.noAction)) := by
  rcases hb : Balances.deposit c.balances a with ⟨b, e⟩
  rcases e with _ | e
  · rcases hdb : c.db id with _ | old
    · refine Or.inr (Or.inr ⟨b, rfl, rfl, ?_⟩)
      simp [processDeposit, hb, AmountCache.insert, hdb]
      rfl
    · refine Or.inr (Or.inl ⟨b, old, rfl, rfl, ?_⟩)
      simp [processDeposit, hb, AmountCache.insert, hdb]
      rfl
  · cases e
    refine Or.inl ⟨b, rfl, ?_⟩
    simp [processDeposit, hb]

/-- Full case analysis of `processWithdrawal`. -/
theorem processWithdrawal_cases (c : Client) (a : Int) :
    (∃ b, Balances.withdrawal c.balances a = (b, some BalancesError.arithmeticOverflow) ∧
      processWithdrawal c a =
        ({ c with balances := b },
          Except.error (ProcessError.fromBalances BalancesError.arithmeticOverflow))) ∨
    (∃ b, Balances.withdrawal c.balances a = (b, none) ∧
      processWithdrawal c a = ({ c with balances := b }, Except.ok Outcome.noAction)) := by
  rcases hb : Balances.withdrawal c.balances a with ⟨b, e⟩
  rcases e with _ | e
  · exact Or.inr ⟨b, rfl, by simp [processWithdrawal, hb]⟩
  · cases e
    exact Or.inl ⟨b, rfl, by simp [processWithdrawal, hb]⟩

/-- Full case analysis of `processDispute`: already disputed, unknown id,
balance failure (partial mutation kept, id not recorded), or success. -/
theorem processDispute_cases (c : Client) (id : Nat) :
    ((∃ a0, c.disputed id = some a0) ∧ processDispute c id = (c, Except.ok Outcome.noAction)) ∨
    (c.disputed id = none ∧ c.db id = none ∧
      processDispute c id = (c, Except.ok Outcome.noAction)) ∨
    (∃ a b, c.disputed id = none ∧ c.db id = some a ∧
      Balances.dispute c.balances a = (b, some BalancesError.arithmeticOverflow) ∧
      processDispute c id =
        ({ c with balances := b },
          Except.error (ProcessError.fromBalances BalancesError.arithmeticOverflow))) ∨
    (∃ a b, c.disputed id = none ∧ c.db id = some a ∧
      Balances.dispute c.balances a = (b, none) ∧
      processDispute c id =
        ({ c with balances := b, disputed := mapInsert c.disputed id a },
          Except.ok Outcome.noAction)) := by
  rcases hd : c.disputed id with _ | a0
  · rcases hdb : c.db id with _ | a
    · exact Or.inr (Or.inl ⟨rfl, rfl, by simp [processDispute, hd, AmountCache.get, hdb]⟩)
    · rcases hb : Balances.dispute c.balances a with ⟨b, e⟩
      rcases e with _ | e
      · refine Or.inr (Or.inr (Or.inr ⟨a, b, rfl, rfl, hb, ?_⟩))
        simp [processDispute, hd, AmountCache.get, hdb, hb]
        rfl
      · cases e
        refine Or.inr (Or.inr (Or.inl ⟨a, b, rfl, rfl, hb, ?_⟩))
        simp [processDispute, hd, AmountCache.get, hdb, hb]
  · exact Or.inl ⟨⟨a0, rfl⟩, by simp [processDispute, hd]⟩

/-- Full case analysis of `processResolve`. -/
theorem processResolve_cases (c : Client) (id : Nat) :
    (c.disputed id = none ∧ processResolve c id = (c, Except.ok Outcome.noAction)) ∨
    (∃ a b, c.disputed id = some a ∧
      Balances.resolve c.balances a = (b, some BalancesError.arithmeticOverflow) ∧
      processResolve c id =
        ({ c with balances := b },
          Except.error (ProcessError.fromBalances BalancesError.arithmeticOverflow))) ∨
    (∃ a b, c.disputed id = some a ∧ Balances.resolve c.balances a = (b, none) ∧
      processResolve c id =
        ({ c with balances := b, disputed := mapRemove c.disputed id },
          Except.ok Outcome.noAction)) := by
  rcases hd : c.disputed id with _ | a
  · exact Or.inl ⟨rfl, by simp [processResolve, hd]⟩
  · rcases hb : Balances.resolve c.balances a with ⟨b, e⟩
    rcases e with _ | e
    · refine Or.inr (Or.inr ⟨a, b, rfl, hb, ?_⟩)
      simp [processResolve, hd, hb]
      rfl
    · cases e
      refine Or.inr (Or.inl ⟨a, b, rfl, hb, ?_⟩)
      simp [processResolve, hd, hb]

/-- Full case analysis of `processChargeback`: only its success branch yields
`LockAccount`. -/
theorem processChargeback_cases (c : Client) (id : Nat) :
    (c.disputed id = none ∧ processChargeback c id = (c, Except.ok Outcome.noAction)) ∨
    (∃ a b, c.disputed id = some a ∧
      Balances.chargeback c.balances a = (b, some BalancesError.arithmeticOverflow) ∧
      processChargeback c id =
        ({ c with balances := b },
          Except.error (ProcessError.fromBalances BalancesError.arithmeticOverflow))) ∨
    (∃ a b, c.disputed id = some a ∧ Balances.chargeback c.balances a = (b, none) ∧
      processChargeback c id =
        ({ c with balances := b, disputed := mapRemove c.disputed id },
          Except.ok Outcome.lockAccount)) := by
  rcases hd : c.disputed id with _ | a
  · exact Or.inl ⟨rfl, by simp [processChargeback, hd]⟩
  · rcases hb : Balances.chargeback c.balances a with ⟨b, e⟩
    rcases e with _ | e
    · refine Or.inr (Or.inr ⟨a, b, rfl, hb, ?_⟩)
      simp [processChargeback, hd, hb]
      rfl
    · cases e
      refine Or.inr (Or.inl ⟨a, b, rfl, hb, ?_⟩)
      simp [processChargeback, hd, hb]

/-- `crank` case analysis: locked clients drop the transaction; otherwise the
processed state is kept and a `LockAccount` outcome sets the flag. -/
theorem applyTx_eq (c : Client) (t : Transaction) :
    (c.locked = true ∧ applyTx c t = c) ∨
    (c.locked = false ∧ (processTx c t).2 = Except.ok Outcome.lockAccount ∧
      applyTx c t = { (processTx c t).1 with locked := true }) ∨
    (c.locked = false ∧ (processTx c t).2 ≠ Except.ok Outcome.lockAccount ∧
      applyTx c t = (processTx c t).1) := by
  rcases hl : c.locked
  · rcases hp : processTx c t with ⟨c1, r⟩
    rcases r with e | o
    · refine Or.inr (Or.inr ⟨rfl, by simp, ?_⟩)
      simp [applyTx, hl, hp]
    · rcases o
      · refine Or.inr (Or.inl ⟨rfl, rfl, ?_⟩)
        simp [applyTx, hl, hp]
      · refine Or.inr (Or.inr ⟨rfl, by simp, ?_⟩)
        simp [applyTx, hl, hp]
  · exact Or.inl ⟨rfl, by simp [applyTx, hl]⟩

/-- A locked client ignores every transaction entirely. -/
theorem applyTx_locked {c : Client} (t : Transaction) (h : c.locked = true) :
    applyTx c t = c := by
  simp [applyTx, h]

/-- Processing never changes the locked flag itself (only `crank` does, on a
`LockAccount` outcome). -/
theorem processTx_locked (c : Client) (t : Transaction) :
    (processTx c t).1.locked = c.locked := by
  cases t with
  | deposit id a =>
    rcases processDeposit_cases c id a with ⟨b, _, h⟩ | ⟨b, old, _, _, h⟩ | ⟨b, _, _, h⟩ <;>
      simp [processTx, h]
  | withdrawal id a =>
    rcases processWithdrawal_cases c a with ⟨b, _, h⟩ | ⟨b, _, h⟩ <;>
      simp [processTx, h]
  | dispute id =>
    rcases processDispute_cases c id with ⟨_, h⟩ | ⟨_, _, h⟩ | ⟨a, b, _, _, _, h⟩ | ⟨a, b, _, _, _, h⟩ <;>
      simp [processTx, h]
  | resolve id =>
    rcases processResolve_cases c id with ⟨_, h⟩ | ⟨a, b, _, _, h⟩ | ⟨a, b, _, _, h⟩ <;>
      simp [processTx, h]
  | chargeback id =>
    rcases processChargeback_cases c id with ⟨_, h⟩ | ⟨a, b, _, _, h⟩ | ⟨a, b, _, _, h⟩ <;>
      simp [processTx, h]

/-- A `LockAccount` outcome can only come from a chargeback of a currently
disputed id whose `Balances::chargeback` succeeded. -/
theorem processTx_lockAccount (c : Client) (t : Transaction)
    (h : (processTx c t).2 = Except.ok Outcome.lockAccount) :
    ∃ id a b, t = Transaction.chargeback id ∧ c.disputed id = some a ∧
      Balances.chargeback c.balances a = (b, none) := by
  cases t with
  | deposit id a =>
    rcases processDeposit_cases c id a with ⟨b, _, hp⟩ | ⟨b, old, _, _, hp⟩ | ⟨b, _, _, hp⟩ <;>
      rw [processTx] at h <;> rw [hp] at h <;> simp at h
  | withdrawal id a =>
    rcases processWithdrawal_cases c a with ⟨b, _, hp⟩ | ⟨b, _, hp⟩ <;>
      rw [processTx] at h <;> rw [hp] at h <;> simp at h
  | dispute id =>
    rcases processDispute_cases c id with ⟨_, hp⟩ | ⟨_, _, hp⟩ | ⟨a, b, _, _, _, hp⟩ | ⟨a, b, _, _, _, hp⟩ <;>
      rw [processTx] at h <;> rw [hp] at h <;> simp at h
  | resolve id =>
    rcases processResolve_cases c id with ⟨_, hp⟩ | ⟨a, b, _, _, hp⟩ | ⟨a, b, _, _, hp⟩ <;>
      rw [processTx] at h <;> rw [hp] at h <;> simp at h
  | chargeback id =>
    rcases processChargeback_cases c id with ⟨_, hp⟩ | ⟨a, b, _, _, hp⟩ | ⟨a, b, hd, hb, hp⟩ <;>
      rw [processTx] at h <;> rw [hp] at h <;> simp at h
    exact ⟨id, a, b, rfl, hd, hb⟩

/-- The invariant behind claim C3: both balance fields are non-negative and
every amount recorded in the deposit index or the disputed map is strictly
positive. -/
def Inv3 (c : Client) : Prop :=
  0 ≤ c.balances.available ∧ 0 ≤ c.balances.held ∧
  (∀ id a, c.db id = some a → 0 < a) ∧
  (∀ id a, c.disputed id = some a → 0 < a)

theorem mapInsert_pos {m : AmountMap} {id : Nat} {a : Int}
    (hm : ∀ k v, m k = some v → 0 < v) (ha : 0 < a) :
    ∀ k v, mapInsert m id a k = some v → 0 < v := by
  intro k v hk
  unfold mapInsert at hk
  by_cases hkid : k = id
  · rw [if_pos hkid] at hk
    cases hk
    exact ha
  · rw [if_neg hkid] at hk
    exact hm k v hk

theorem mapRemove_some {m : AmountMap} {id k : Nat} {v : Int}
    (h : mapRemove m id k = some v) : m k = some v := by
  unfold mapRemove at h
  by_cases hk : k = id
  · rw [if_pos hk] at h
    exact absurd h (by simp)
  · rw [if_neg hk] at h
    exact h

theorem inv3bal_deposit (b : Balances) (a : Int)
    (h1 : 0 ≤ b.available) (h2 : 0 ≤ b.held) (ha : 0 ≤ a) :
    0 ≤ (Balances.deposit b a).1.available ∧ 0 ≤ (Balances.deposit b a).1.held := by
  rcases deposit_cases b a with ⟨_, h⟩ | ⟨av, hav, _, h⟩ | ⟨av, t, hav, _, h⟩ <;> rw [h]
  · exact ⟨h1, h2⟩
  · have hv := nnAdd_some hav
    exact ⟨by show 0 ≤ av; omega, h2⟩
  · have hv := nnAdd_some hav
    exact ⟨by show 0 ≤ av; omega, h2⟩

theorem inv3bal_withdrawal (b : Balances) (a : Int)
    (h1 : 0 ≤ b.available) (h2 : 0 ≤ b.held) :
    0 ≤ (Balances.withdrawal b a).1.available ∧ 0 ≤ (Balances.withdrawal b a).1.held := by
  rcases withdrawal_cases b a with ⟨_, h⟩ | ⟨av, hav, _, h⟩ | ⟨av, t, hav, _, h⟩ <;> rw [h]
  · exact ⟨h1, h2⟩
  · exact ⟨nnSub_nonneg hav, h2⟩
  · exact ⟨nnSub_nonneg hav, h2⟩

theorem inv3bal_dispute (b : Balances) (a : Int)
    (h1 : 0 ≤ b.available) (h2 : 0 ≤ b.held) (ha : 0 ≤ a) :
    0 ≤ (Balances.dispute b a).1.available ∧ 0 ≤ (Balances.dispute b a).1.held := by
  rcases dispute_cases b a with ⟨_, h⟩ | ⟨hh, hadd, _, h⟩ | ⟨hh, av, hadd, hsub, h⟩ <;> rw [h]
  · exact ⟨h1, h2⟩
  · have hv := nnAdd_some hadd
    exact ⟨h1, by show 0 ≤ hh; omega⟩
  · have hv := nnAdd_some hadd
    exact ⟨nnSub_nonneg hsub, by show 0 ≤ hh; omega⟩

theorem inv3bal_resolve (b : Balances) (a : Int)
    (h1 : 0 ≤ b.available) (h2 : 0 ≤ b.held) (ha : 0 ≤ a) :
    0 ≤ (Balances.resolve b a).1.available ∧ 0 ≤ (Balances.resolve b a).1.held := by
  rcases resolve_cases b a with ⟨_, h⟩ | ⟨hh, hsub, _, h⟩ | ⟨hh, av, hsub, hadd, h⟩ <;> rw [h]
  · exact ⟨h1, h2⟩
  · exact ⟨h1, nnSub_nonneg hsub⟩
  · have hv := nnAdd_some hadd
    exact ⟨by show 0 ≤ av; omega, nnSub_nonneg hsub⟩

theorem inv3bal_chargeback (b : Balances) (a : Int)
    (h1 : 0 ≤ b.available) (h2 : 0 ≤ b.held) :
    0 ≤ (Balances.chargeback b a).1.available ∧ 0 ≤ (Balances.chargeback b a).1.held := by
  rcases chargeback_cases b a with ⟨_, h⟩ | ⟨hh, hsub, _, h⟩ | ⟨hh, t, hsub, _, h⟩ <;> rw [h]
  · exact ⟨h1, h2⟩
  · exact ⟨h1, nnSub_nonneg hsub⟩
  · exact ⟨h1, nnSub_nonneg hsub⟩

theorem inv3_processTx (c : Client) (t : Transaction)
    (hc : Inv3 c) (ht : txAmountPos t) : Inv3 ((processTx c t).1) := by
  obtain ⟨h1, h2, h3, h4⟩ := hc
  unfold Inv3
  cases t with
  | deposit id a =>
    have ha : (0 : Int) < a := ht
    have hbal := inv3bal_deposit c.balances a h1 h2 (le_of_lt ha)
    rcases processDeposit_cases c id a with ⟨b, hb, hp⟩ | ⟨b, old, hb, _, hp⟩ | ⟨b, hb, _, hp⟩ <;>
      simp only [processTx] <;> rw [hp] <;> rw [hb] at hbal
    · exact ⟨hbal.1, hbal.2, h3, h4⟩
    · exact ⟨hbal.1, hbal.2, mapInsert_pos h3 ha, h4⟩
    · exact ⟨hbal.1, hbal.2, mapInsert_pos h3 ha, h4⟩
  | withdrawal id a =>
    have hbal := inv3bal_withdrawal c.balances a h1 h2
    rcases processWithdrawal_cases c a with ⟨b, hb, hp⟩ | ⟨b, hb, hp⟩ <;>
      simp only [processTx] <;> rw [hp] <;> rw [hb] at hbal
    · exact ⟨hbal.1, hbal.2, h3, h4⟩
    · exact ⟨hbal.1, hbal.2, h3, h4⟩
  | dispute id =>
    rcases processDispute_cases c id with ⟨_, hp⟩ | ⟨_, _, hp⟩ |
        ⟨a, b, _, hdb, hb, hp⟩ | ⟨a, b, _, hdb, hb, hp⟩ <;>
      simp only [processTx] <;> rw [hp]
    · exact ⟨h1, h2, h3, h4⟩
    · exact ⟨h1, h2, h3, h4⟩
    · have ha := h3 id a hdb
      have hbal := inv3bal_dispute c.balances a h1 h2 (le_of_lt ha)
      rw [hb] at hbal
      exact ⟨hbal.1, hbal.2, h3, h4⟩
    · have ha := h3 id a hdb
      have hbal := inv3bal_dispute c.balances a h1 h2 (le_of_lt ha)
      rw [hb] at hbal
      exact ⟨hbal.1, hbal.2, h3, mapInsert_pos h4 ha⟩
  | resolve id =>
    rcases processResolve_cases c id with ⟨_, hp⟩ | ⟨a, b, hd, hb, hp⟩ | ⟨a, b, hd, hb, hp⟩ <;>
      simp only [processTx] <;> rw [hp]
    · exact ⟨h1, h2, h3, h4⟩
    · have ha := h4 id a hd
      have hbal := inv3bal_resolve c.balances a h1 h2 (le_of_lt ha)
      rw [hb] at hbal
      exact ⟨hbal.1, hbal.2, h3, h4⟩
    · have ha := h4 id a hd
      have hbal := inv3bal_resolve c.balances a h1 h2 (le_of_lt ha)
      rw [hb] at hbal
      exact ⟨hbal.1, hbal.2, h3, fun k v hk => h4 k v (mapRemove_some hk)⟩
  | chargeback id =>
    rcases processChargeback_cases c id with ⟨_, hp⟩ | ⟨a, b, hd, hb, hp⟩ | ⟨a, b, hd, hb, hp⟩ <;>
      simp only [processTx] <;> rw [hp]
    · exact ⟨h1, h2, h3, h4⟩
    · have hbal := inv3bal_chargeback c.balances a h1 h2
      rw [hb] at hbal
      exact ⟨hbal.1, hbal.2, h3, h4⟩
    · have hbal := inv3bal_chargeback c.balances a h1 h2
      rw [hb] at hbal
      exact ⟨hbal.1, hbal.2, h3, fun k v hk => h4 k v (mapRemove_some hk)⟩

theorem inv3_applyTx (c : Client) (t : Transaction)
    (hc : Inv3 c) (ht : txAmountPos t) : Inv3 (applyTx c t) := by
  rcases applyTx_eq c t with ⟨_, he⟩ | ⟨_, _, he⟩ | ⟨_, _, he⟩ <;> rw [he]
  · exact hc
  · exact inv3_processTx c t hc ht
  · exact inv3_processTx c t hc ht

theorem inv3_runTxs (txs : List Transaction) (c : Client)
    (hc : Inv3 c) (ht : ∀ t ∈ txs, txAmountPos t) : Inv3 (runTxs c txs) := by
  induction txs generalizing c with
  | nil => exact hc
  | cons t ts ih =>
    exact ih (applyTx c t) (inv3_applyTx c t hc (ht t (by simp)))
      (fun u hu => ht u (by simp [hu]))

theorem inv3_new (cid : Nat) : Inv3 (Client.new cid) := by
  refine ⟨le_refl 0, le_refl 0, ?_, ?_⟩ <;> intro k v hk <;>
    exact absurd hk (by simp [Client.new, AmountMap.empty])

/-- The invariant behind claim C5: every disputed id is present in the deposit
index with the same amount. -/
def Inv5 (c : Client) : Prop :=
  ∀ id a, c.disputed id = some a → c.db id = some a

theorem inv5_processTx (c : Client) (t : Transaction) (hc : Inv5 c)
    (hdep : ∀ id a, t = Transaction.deposit id a → c.db id = none) :
    Inv5 ((processTx c t).1) := by
  cases t with
  | deposit id a =>
    have hnone : c.db id = none := hdep id a rfl
    rcases processDeposit_cases c id a with ⟨b, hb, hp⟩ | ⟨b, old, hb, hold, hp⟩ | ⟨b, hb, _, hp⟩ <;>
      simp only [processTx] <;> rw [hp]
    · exact hc
    · rw [hnone] at hold
      exact absurd hold (by simp)
    · intro k v hk
      by_cases hkid : k = id
      · rw [hkid] at hk
        rw [hc id v hk] at hnone
        exact absurd hnone (by simp)
      · show mapInsert c.db id a k = some v
        simp only [mapInsert, if_neg hkid]
        exact hc k v hk
  | withdrawal id a =>
    rcases processWithdrawal_cases c a with ⟨b, hb, hp⟩ | ⟨b, hb, hp⟩ <;>
      simp only [processTx] <;> rw [hp] <;> exact hc
  | dispute id =>
    rcases processDispute_cases c id with ⟨_, hp⟩ | ⟨_, _, hp⟩ |
        ⟨a, b, _, hdb, _, hp⟩ | ⟨a, b, _, hdb, _, hp⟩ <;>
      simp only [processTx] <;> rw [hp]
    · exact hc
    · exact hc
    · exact hc
    · intro k v hk
      have hk2 : mapInsert c.disputed id a k = some v := hk
      by_cases hkid : k = id
      · simp only [mapInsert, if_pos hkid] at hk2
        cases hk2
        rw [hkid]
        exact hdb
      · simp only [mapInsert, if_neg hkid] at hk2
        exact hc k v hk2
  | resolve id =>
    rcases processResolve_cases c id with ⟨_, hp⟩ | ⟨a, b, _, _, hp⟩ | ⟨a, b, _, _, hp⟩ <;>
      simp only [processTx] <;> rw [hp]
    · exact hc
    · exact hc
    · exact fun k v hk => hc k v (mapRemove_some hk)
  | chargeback id =>
    rcases processChargeback_cases c id with ⟨_, hp⟩ | ⟨a, b, _, _, hp⟩ | ⟨a, b, _, _, hp⟩ <;>
      simp only [processTx] <;> rw [hp]
    · exact hc
    · exact hc
    · exact fun k v hk => hc k v (mapRemove_some hk)

theorem inv5_applyTx (c : Client) (t : Transaction) (hc : Inv5 c)
    (hdep : ∀ id a, t = Transaction.deposit id a → c.db id = none) :
    Inv5 (applyTx c t) := by
  rcases applyTx_eq c t with ⟨_, he⟩ | ⟨_, _, he⟩ | ⟨_, _, he⟩ <;> rw [he]
  · exact hc
  · exact inv5_processTx c t hc hdep
  · exact inv5_processTx c t hc hdep

/-- The deposit index entry at `k` is only ever written by a deposit with
id `k`. -/
theorem applyTx_db (c : Client) (t : Transaction) (k : Nat) :
    (applyTx c t).db k = c.db k ∨ ∃ a, t = Transaction.deposit k a := by
  have main : (processTx c t).1.db k = c.db k ∨ ∃ a, t = Transaction.deposit k a := by
    cases t with
    | deposit id a =>
      by_cases hkid : k = id
      · exact Or.inr ⟨a, by rw [hkid]⟩
      · rcases processDeposit_cases c id a with ⟨b, _, hp⟩ | ⟨b, old, _, _, hp⟩ | ⟨b, _, _, hp⟩ <;>
          simp only [processTx] <;> rw [hp] <;> left
        · rfl
        · show mapInsert c.db id a k = c.db k
          simp only [mapInsert, if_neg hkid]
        · show mapInsert c.db id a k = c.db k
          simp only [mapInsert, if_neg hkid]
    | withdrawal id a =>
      rcases processWithdrawal_cases c a with ⟨b, _, hp⟩ | ⟨b, _, hp⟩ <;>
        simp only [processTx] <;> rw [hp] <;> exact Or.inl rfl
    | dispute id =>
      rcases processDispute_cases c id with ⟨_, hp⟩ | ⟨_, _, hp⟩ |
          ⟨a, b, _, _, _, hp⟩ | ⟨a, b, _, _, _, hp⟩ <;>
        simp only [processTx] <;> rw [hp] <;> exact Or.inl rfl
    | resolve id =>
      rcases processResolve_cases c id with ⟨_, hp⟩ | ⟨a, b, _, _, hp⟩ | ⟨a, b, _, _, hp⟩ <;>
        simp only [processTx] <;> rw [hp] <;> exact Or.inl rfl
    | chargeback id =>
      rcases processChargeback_cases c id with ⟨_, hp⟩ | ⟨a, b, _, _, hp⟩ | ⟨a, b, _, _, hp⟩ <;>
        simp only [processTx] <;> rw [hp] <;> exact Or.inl rfl
  rcases applyTx_eq c t with ⟨_, he⟩ | ⟨_, _, he⟩ | ⟨_, _, he⟩ <;> rw [he]
  · exact Or.inl rfl
  · exact main
  · exact main

theorem inv5_runTxs (txs : List Transaction) (c : Client) (hc : Inv5 c)
    (hds : ∀ id ∈ depositIds txs, c.db id = none)
    (hnd : (depositIds txs).Nodup) : Inv5 (runTxs c txs) := by
  induction txs generalizing c with
  | nil => exact hc
  | cons t ts ih =>
    have hdep : ∀ id a, t = Transaction.deposit id a → c.db id = none := by
      intro id a hta
      refine hds id ?_
      rw [hta]
      simp [depositIds]
    refine ih (applyTx c t) (inv5_applyTx c t hc hdep) ?_ ?_
    · intro id hid
      rcases applyTx_db c t id with hsame | ⟨a, hta⟩
      · rw [hsame]
        refine hds id ?_
        cases t <;> simp [depositIds] at hid ⊢ <;> try exact hid
        exact Or.inr hid
      · rw [hta] at hnd
        simp [depositIds] at hnd
        exact absurd hid hnd.1
    · cases t <;> simp [depositIds] at hnd ⊢ <;> try exact hnd
      exact hnd.2

/-- Claim C1: the claim states that every failing `Balances` operation leaves
all balance fields unchanged and in particular that a dispute with
`available < a` changes neither `available` nor `held`.  Evaluating the code
at the failing input: a dispute of amount 1 on the fresh zero account returns
the arithmetic-overflow error yet leaves `held` at 1, because the `held`
update commits before the `available` subtraction fails; the same partial
mutation is reachable through the client processor by deposit 10,
withdrawal 10, dispute. -/
theorem claim_c1 :
    (Balances.dispute Balances.new 1).2 = some BalancesError.arithmeticOverflow ∧
    (Balances.dispute Balances.new 1).1.held = 1 ∧
    (Balances.dispute Balances.new 1).1.available = 0 ∧
    (runTxs (Client.new 1) [Transaction.deposit 1 10, Transaction.withdrawal 2 10,
      Transaction.dispute 1]).balances.held = 10 ∧
    (runTxs (Client.new 1) [Transaction.deposit 1 10, Transaction.withdrawal 2 10,
      Transaction.dispute 1]).balances.available = 0 := by
  decide

/-- Claim C2, counterexample: two reachable client states agree on `available`
and `held` yet their `Balances` values differ (the stored third field `total`
is 0 in one and 1 in the other), so the `Balances` value does not hold exactly
the two fields `available` and `held`. -/
theorem claim_c2_counterexample :
    (runTxs (Client.new 1) [Transaction.deposit 1 1, Transaction.withdrawal 2 1,
        Transaction.dispute 1]).balances.available =
      (runTxs (Client.new 1) [Transaction.deposit 1 1, Transaction.dispute 1]).balances.available ∧
    (runTxs (Client.new 1) [Transaction.deposit 1 1, Transaction.withdrawal 2 1,
        Transaction.dispute 1]).balances.held =
      (runTxs (Client.new 1) [Transaction.deposit 1 1, Transaction.dispute 1]).balances.held ∧
    (runTxs (Client.new 1) [Transaction.deposit 1 1, Transaction.withdrawal 2 1,
        Transaction.dispute 1]).balances.total = 0 ∧
    (runTxs (Client.new 1) [Transaction.deposit 1 1, Transaction.dispute 1]).balances.total = 1 ∧
    (runTxs (Client.new 1) [Transaction.deposit 1 1, Transaction.withdrawal 2 1,
        Transaction.dispute 1]).balances ≠
      (runTxs (Client.new 1) [Transaction.deposit 1 1, Transaction.dispute 1]).balances := by
  decide

/-- Claim C2 (amended): although the source `Balances` struct stores a third
`total` field, the snapshot never reads it: the emitted total is computed as
`available + held` from the same snapshot, the other output fields are copied
from the snapshot, a change of the stored `total` field alone cannot change
the output record, and if the addition overflows no record is produced. -/
theorem claim_c2 (c : Client) :
    (∀ r, OutputRecord.tryFrom c = some r →
      r.total = c.balances.available + c.balances.held ∧
      r.available = c.balances.available ∧ r.held = c.balances.held ∧
      r.locked = c.locked ∧ r.client = c.client) ∧
    (NonNegative.add c.balances.available c.balances.held = none →
      OutputRecord.tryFrom c = none) ∧
    (∀ t0 : Int, OutputRecord.tryFrom { c with balances := { c.balances with total := t0 } } =
      OutputRecord.tryFrom c) := by
  refine ⟨?_, ?_, ?_⟩
  · intro r hr
    unfold OutputRecord.tryFrom at hr
    rcases hadd : NonNegative.add c.balances.available c.balances.held with _ | t
    · rw [hadd] at hr
      exact absurd hr (by simp)
    · rw [hadd] at hr
      have ht := nnAdd_some hadd
      cases hr
      exact ⟨ht, rfl, rfl, rfl, rfl⟩
  · intro h
    unfold OutputRecord.tryFrom
    rw [h]
  · intro t0
    rfl

theorem claim_c2_witness :
    OutputRecord.tryFrom (Client.new 3) =
      some { client := 3, available := 0, held := 0, total := 0, locked := false } ∧
    ({ client := 3, available := 0, held := 0, total := 0, locked := false } : OutputRecord).total =
      (Client.new 3).balances.available + (Client.new 3).balances.held :=
  ⟨by rfl, ((claim_c2 (Client.new 3)).1 _ (by rfl)).1⟩

/-- Claim C3: for any client and any finite transaction sequence whose deposit
and withdrawal amounts are strictly positive (as `NonZero` conversion
guarantees), the `available` and `held` balances of the resulting client state
are non-negative. -/
theorem claim_c3 (cid : Nat) (txs : List Transaction)
    (ht : ∀ t ∈ txs, txAmountPos t) :
    0 ≤ (runTxs (Client.new cid) txs).balances.available ∧
    0 ≤ (runTxs (Client.new cid) txs).balances.held := by
  have h := inv3_runTxs txs (Client.new cid) (inv3_new cid) ht
  exact ⟨h.1, h.2.1⟩

theorem claim_c3_witness :
    0 ≤ (runTxs (Client.new 1) [Transaction.deposit 1 5, Transaction.withdrawal 2 5,
      Transaction.dispute 1, Transaction.chargeback 1]).balances.available ∧
    0 ≤ (runTxs (Client.new 1) [Transaction.deposit 1 5, Transaction.withdrawal 2 5,
      Transaction.dispute 1, Transaction.chargeback 1]).balances.held :=
  claim_c3 1 [Transaction.deposit 1 5, Transaction.withdrawal 2 5,
    Transaction.dispute 1, Transaction.chargeback 1] (by decide)

/-- Claim C4: a locked account absorbs every transaction without any state
change (so the flag never reverts and no balance, deposit-index entry or
dispute-set entry changes after locking), and the only transition that sets
the flag on an unlocked account is a chargeback of a currently disputed id
whose `Balances::chargeback` succeeded. -/
theorem claim_c4 (c : Client) (t : Transaction) :
    (c.locked = true → applyTx c t = c) ∧
    (c.locked = true → (applyTx c t).locked = true) ∧
    (c.locked = false → (applyTx c t).locked = true →
      ∃ id a b, t = Transaction.chargeback id ∧ c.disputed id = some a ∧
        Balances.chargeback c.balances a = (b, none)) := by
  refine ⟨fun h => applyTx_locked t h, fun h => by rw [applyTx_locked t h]; exact h, ?_⟩
  intro hf hl
  rcases applyTx_eq c t with ⟨h1, _⟩ | ⟨_, h2, _⟩ | ⟨_, _, he⟩
  · rw [h1] at hf
    exact absurd hf (by simp)
  · exact processTx_lockAccount c t h2
  · rw [he, processTx_locked c t, hf] at hl
    exact absurd hl (by simp)

theorem claim_c4_witness :
    (applyTx { Client.new 1 with locked := true } (Transaction.deposit 1 5) =
      { Client.new 1 with locked := true }) ∧
    (∃ id a b, (Transaction.chargeback 1 : Transaction) = Transaction.chargeback id ∧
      (runTxs (Client.new 1) [Transaction.deposit 1 5, Transaction.dispute 1]).disputed id
        = some a ∧
      Balances.chargeback (runTxs (Client.new 1)
        [Transaction.deposit 1 5, Transaction.dispute 1]).balances a = (b, none)) :=
  ⟨(claim_c4 { Client.new 1 with locked := true } (Transaction.deposit 1 5)).1 rfl,
   (claim_c4 (runTxs (Client.new 1) [Transaction.deposit 1 5, Transaction.dispute 1])
     (Transaction.chargeback 1)).2.2 (by decide) (by decide)⟩

/-- Claim C5, counterexample: after deposit(id 1, 5), dispute(1),
deposit(id 1, 7) - a stream violating the id-uniqueness assumption - the
disputed map holds amount 5 for id 1 while the deposit index holds 7, so the
amounts differ. -/
theorem claim_c5_counterexample :
    (runTxs (Client.new 1) [Transaction.deposit 1 5, Transaction.dispute 1,
      Transaction.deposit 1 7]).disputed 1 = some 5 ∧
    (runTxs (Client.new 1) [Transaction.deposit 1 5, Transaction.dispute 1,
      Transaction.deposit 1 7]).db 1 = some 7 ∧
    (runTxs (Client.new 1) [Transaction.deposit 1 5, Transaction.dispute 1,
      Transaction.deposit 1 7]).db 1 ≠ some 5 := by
  decide

/-- Claim C5 (amended): provided no two deposits of the stream share an id
(the documented id-uniqueness assumption), every id present in the disputed
map after a run is present in the deposit index with the same amount. -/
theorem claim_c5 (cid : Nat) (txs : List Transaction)
    (hnd : (depositIds txs).Nodup) :
    ∀ id a, (runTxs (Client.new cid) txs).disputed id = some a →
      (runTxs (Client.new cid) txs).db id = some a := by
  refine inv5_runTxs txs (Client.new cid) ?_ ?_ hnd
  · intro id a h
    exact absurd h (by simp [Client.new, AmountMap.empty, Balances.new])
  · intro id _
    rfl

theorem claim_c5_witness :
    (runTxs (Client.new 1) [Transaction.deposit 1 5, Transaction.dispute 1]).disputed 1
      = some 5 ∧
    (runTxs (Client.new 1) [Transaction.deposit 1 5, Transaction.dispute 1]).db 1 = some 5 :=
  ⟨by decide,
   claim_c5 1 [Transaction.deposit 1 5, Transaction.dispute 1] (by decide) 1 5 (by decide)⟩

/-- Claim C6, counterexample: the claim's first half is not unconditional.
In the reachable state produced by deposit 10, dispute, deposit (decMax - 5)
- where the failing second deposit already committed its `available` update
but not its `total` update - a withdrawal of exactly `available` returns the
arithmetic-overflow error (from the `total` subtraction), although the
partially committed mutation still zeroes `available`. -/
theorem claim_c6_counterexample :
    (runTxs (Client.new 1) [Transaction.deposit 1 10, Transaction.dispute 1,
      Transaction.deposit 2 (decMax - 5)]).balances.available = decMax - 5 ∧
    (processWithdrawal (runTxs (Client.new 1) [Transaction.deposit 1 10, Transaction.dispute 1,
        Transaction.deposit 2 (decMax - 5)]) (decMax - 5)).2 =
      Except.error (ProcessError.fromBalances BalancesError.arithmeticOverflow) ∧
    (applyTx (runTxs (Client.new 1) [Transaction.deposit 1 10, Transaction.dispute 1,
        Transaction.deposit 2 (decMax - 5)])
      (Transaction.withdrawal 3 (decMax - 5))).balances.available = 0 :=
  ⟨by decide, by rfl, by decide⟩

/-- Claim C6 (amended): on an unlocked account whose state satisfies the
intended consistency bounds (`available` non-negative and not above `total`,
`total` within range - bounds that only the non-atomic deposit slip can
break), a withdrawal of exactly `available` succeeds and zeroes `available`,
while a withdrawal of any amount strictly above `available` returns the
overflow error and leaves the entire client state unchanged. -/
theorem claim_c6 (c : Client) (id : Nat) (a : Int) (hunlocked : c.locked = false) :
    (a = c.balances.available → c.balances.available ≤ c.balances.total →
      c.balances.total ≤ decMax → 0 ≤ c.balances.available →
      (processWithdrawal c a).2 = Except.ok Outcome.noAction ∧
      (applyTx c (Transaction.withdrawal id a)).balances.available = 0) ∧
    (c.balances.available < a →
      (processWithdrawal c a).2 =
        Except.error (ProcessError.fromBalances BalancesError.arithmeticOverflow) ∧
      applyTx c (Transaction.withdrawal id a) = c) := by
  constructor
  · intro ha hat htm h0
    subst ha
    have hs1 : NonNegative.sub c.balances.available c.balances.available = some 0 := by
      have h := nnSub_of (a := c.balances.available) (b := c.balances.available)
        (by linarith) (by rw [sub_self]; exact decMax_nonneg)
      rw [sub_self] at h
      exact h
    have hs2 : NonNegative.sub c.balances.total c.balances.available =
        some (c.balances.total - c.balances.available) :=
      nnSub_of (by linarith) (by linarith)
    have hW : Balances.withdrawal c.balances c.balances.available =
        ({ c.balances with available := 0, total := c.balances.total - c.balances.available }, none) := by
      unfold Balances.withdrawal
      rw [hs1, hs2]
    exact ⟨by simp [processWithdrawal, hW],
      by simp [applyTx, hunlocked, processTx, processWithdrawal, hW]⟩
  · intro hlt
    have hs : NonNegative.sub c.balances.available a = none := nnSub_none_of_lt hlt
    have hW : Balances.withdrawal c.balances a =
        (c.balances, some BalancesError.arithmeticOverflow) := by
      unfold Balances.withdrawal
      rw [hs]
    refine ⟨by simp [processWithdrawal, hW], ?_⟩
    simp [applyTx, hunlocked, processTx, processWithdrawal, hW]
    rw [← hunlocked]

theorem claim_c6_witness :
    ((processWithdrawal (runTxs (Client.new 1) [Transaction.deposit 1 5]) 5).2 =
        Except.ok Outcome.noAction ∧
      (applyTx (runTxs (Client.new 1) [Transaction.deposit 1 5])
        (Transaction.withdrawal 2 5)).balances.available = 0) ∧
    ((processWithdrawal (runTxs (Client.new 1) [Transaction.deposit 1 5]) 6).2 =
        Except.error (ProcessError.fromBalances BalancesError.arithmeticOverflow) ∧
      applyTx (runTxs (Client.new 1) [Transaction.deposit 1 5])
        (Transaction.withdrawal 2 6) = runTxs (Client.new 1) [Transaction.deposit 1 5]) :=
  ⟨(claim_c6 (runTxs (Client.new 1) [Transaction.deposit 1 5]) 2 5 (by decide)).1
      (by decide) (by decide) (by decide) (by decide),
   (claim_c6 (runTxs (Client.new 1) [Transaction.deposit 1 5]) 2 6 (by decide)).2
      (by decide)⟩

/-- Claim C7: from any unlocked client state satisfying the run invariants
(non-negative balances in range, positive deposit amount) in which a dispute
of a valid deposit id succeeds, an immediately following resolve of the same
id also succeeds and restores `available` and `held` to their exact values
from before the dispute. -/
theorem claim_c7 (c : Client) (id : Nat) (a : Int)
    (hunlocked : c.locked = false)
    (hnd : c.disputed id = none) (hdb : c.db id = some a)
    (ha : 0 ≤ a) (hheld : 0 ≤ c.balances.held)
    (havail0 : 0 ≤ c.balances.available) (havail : c.balances.available ≤ decMax)
    (hsuccess : (Balances.dispute c.balances a).2 = none) :
    (processDispute c id).2 = Except.ok Outcome.noAction ∧
    (processResolve (applyTx c (Transaction.dispute id)) id).2 = Except.ok Outcome.noAction ∧
    (applyTx (applyTx c (Transaction.dispute id)) (Transaction.resolve id)).balances.available
      = c.balances.available ∧
    (applyTx (applyTx c (Transaction.dispute id)) (Transaction.resolve id)).balances.held
      = c.balances.held := by
  rcases dispute_cases c.balances a with ⟨_, hb⟩ | ⟨hh, _, _, hb⟩ | ⟨hh, av, hadd, hsub, hb⟩
  · rw [hb] at hsuccess
    exact absurd hsuccess (by simp)
  · rw [hb] at hsuccess
    exact absurd hsuccess (by simp)
  have hhEq := nnAdd_some hadd
  have hhBound := nnAdd_bound hadd
  have havEq := (nnSub_some hsub).1
  have hs1 : NonNegative.sub hh a = some (hh - a) :=
    nnSub_of (by linarith) (by linarith [hhBound.2])
  have hs2 : NonNegative.add av a = some (av + a) :=
    nnSub_some hsub |>.1 ▸ nnAdd_of (by linarith [decMax_nonneg]) (by linarith)
  have heldEq : hh - a = c.balances.held := by linarith
  have avEq : av + a = c.balances.available := by linarith
  have hc1 : applyTx c (Transaction.dispute id) = { c with balances := { c.balances with held := hh, available := av }, disputed := mapInsert c.disputed id a } := by
    simp [applyTx, hunlocked, processTx, processDispute, hnd, AmountCache.get, hdb, hb]
    rfl
  have hRes : Balances.resolve { c.balances with held := hh, available := av } a =
      ({ c.balances with held := hh - a, available := av + a }, none) := by
    unfold Balances.resolve
    show (match NonNegative.sub hh a with
      | none => _
      | some h => match NonNegative.add av a with
        | none => _
        | some av2 => _) = _
    rw [hs1, hs2]
  refine ⟨by simp [processDispute, hnd, AmountCache.get, hdb, hb], ?_, ?_, ?_⟩
  · rw [hc1]
    simp [processResolve, mapInsert, hRes]
  · rw [hc1]
    simp [applyTx, hunlocked, processTx, processResolve, mapInsert, hRes, avEq]
  · rw [hc1]
    simp [applyTx, hunlocked, processTx, processResolve, mapInsert, hRes, heldEq]

theorem claim_c7_witness :
    (processDispute (runTxs (Client.new 1) [Transaction.deposit 1 10]) 1).2 =
      Except.ok Outcome.noAction ∧
    (applyTx (applyTx (runTxs (Client.new 1) [Transaction.deposit 1 10])
        (Transaction.dispute 1)) (Transaction.resolve 1)).balances.available =
      (runTxs (Client.new 1) [Transaction.deposit 1 10]).balances.available ∧
    (applyTx (applyTx (runTxs (Client.new 1) [Transaction.deposit 1 10])
        (Transaction.dispute 1)) (Transaction.resolve 1)).balances.held =
      (runTxs (Client.new 1) [Transaction.deposit 1 10]).balances.held :=
  ⟨(claim_c7 (runTxs (Client.new 1) [Transaction.deposit 1 10]) 1 10 (by decide) (by decide)
      (by decide) (by decide) (by decide) (by decide) (by decide) (by decide)).1,
   (claim_c7 (runTxs (Client.new 1) [Transaction.deposit 1 10]) 1 10 (by decide) (by decide)
      (by decide) (by decide) (by decide) (by decide) (by decide) (by decide)).2.2.1,
   (claim_c7 (runTxs (Client.new 1) [Transaction.deposit 1 10]) 1 10 (by decide) (by decide)
      (by decide) (by decide) (by decide) (by decide) (by decide) (by decide)).2.2.2⟩

/-- Claim C8, counterexample: on a duplicate deposit with a different amount
the deposit index does change - the stored amount 5 for id 1 is replaced by
the new amount 7 when the rejected insert runs - so the event does not leave
the index unchanged as the claim's 'insertion is rejected, no other state
change' asserts. -/
theorem claim_c8_counterexample :
    (runTxs (Client.new 1) [Transaction.deposit 1 5]).db 1 = some 5 ∧
    (processDeposit (runTxs (Client.new 1) [Transaction.deposit 1 5]) 1 7).2 =
      Except.error (ProcessError.duplicatedTransaction 1) ∧
    (processDeposit (runTxs (Client.new 1) [Transaction.deposit 1 5]) 1 7).1.db 1 = some 7 ∧
    (processDeposit (runTxs (Client.new 1) [Transaction.deposit 1 5]) 1 7).1.db 1 ≠ some 5 :=
  ⟨by decide, by rfl, by decide, by decide⟩

/-- Claim C8 (amended): when a deposit arrives whose id is already in the
deposit index and the balance update succeeds, the balance increase is kept
(no rollback) and the insert reports the duplicate-id error, but the index
entry for that id is replaced by the new deposit's amount; all other index
entries, the disputed map and the locked flag are unchanged. -/
theorem claim_c8 (c : Client) (id : Nat) (a : Int) (hunlocked : c.locked = false)
    (hdup : ∃ old, c.db id = some old)
    (hok : (Balances.deposit c.balances a).2 = none) :
    (processDeposit c id a).2 = Except.error (ProcessError.duplicatedTransaction id) ∧
    (applyTx c (Transaction.deposit id a)).balances = (Balances.deposit c.balances a).1 ∧
    (applyTx c (Transaction.deposit id a)).db id = some a ∧
    (∀ k, k ≠ id → (applyTx c (Transaction.deposit id a)).db k = c.db k) ∧
    (applyTx c (Transaction.deposit id a)).disputed = c.disputed ∧
    (applyTx c (Transaction.deposit id a)).locked = c.locked := by
  obtain ⟨old, hold⟩ := hdup
  rcases processDeposit_cases c id a with ⟨b, hb, hp⟩ | ⟨b, old2, hb, hold2, hp⟩ |
      ⟨b, hb, hnone, hp⟩
  · rw [hb] at hok
    exact absurd hok (by simp)
  · have happ : applyTx c (Transaction.deposit id a) =
        { c with balances := b, db := mapInsert c.db id a } := by
      simp [applyTx, hunlocked, processTx, hp]
    refine ⟨by simp [hp], ?_, ?_, ?_, ?_, ?_⟩
    · rw [happ, hb]
    · rw [happ]
      show mapInsert c.db id a id = some a
      simp [mapInsert]
    · intro k hk
      rw [happ]
      show mapInsert c.db id a k = c.db k
      simp [mapInsert, hk]
    · rw [happ]
    · rw [happ, hunlocked]
  · rw [hnone] at hold
    exact absurd hold (by simp)

theorem claim_c8_witness :
    (processDeposit (runTxs (Client.new 1) [Transaction.deposit 1 5]) 1 7).2 =
      Except.error (ProcessError.duplicatedTransaction 1) ∧
    (applyTx (runTxs (Client.new 1) [Transaction.deposit 1 5])
      (Transaction.deposit 1 7)).db 1 = some 7 ∧
    (applyTx (runTxs (Client.new 1) [Transaction.deposit 1 5])
        (Transaction.deposit 1 7)).balances =
      (Balances.deposit (runTxs (Client.new 1) [Transaction.deposit 1 5]).balances 7).1 :=
  ⟨(claim_c8 (runTxs (Client.new 1) [Transaction.deposit 1 5]) 1 7 (by decide)
      ⟨5, by decide⟩ (by rfl)).1,
   (claim_c8 (runTxs (Client.new 1) [Transaction.deposit 1 5]) 1 7 (by decide)
      ⟨5, by decide⟩ (by rfl)).2.2.1,
   (claim_c8 (runTxs (Client.new 1) [Transaction.deposit 1 5]) 1 7 (by decide)
      ⟨5, by decide⟩ (by rfl)).2.1⟩

/-- Claim C9: a deposit or withdrawal record converts to a domain transaction
exactly when it carries a strictly positive amount; a record whose conversion
fails is skipped and leaves any client state unchanged. -/
theorem claim_c9 (r : InputRecord) (hk : r.kind = Kind.deposit ∨ r.kind = Kind.withdrawal) :
    ((∃ t, Transaction.tryFromRecord r = Except.ok t) ↔
      (∃ v, r.amount = some v ∧ 0 < v)) ∧
    (∀ e, Transaction.tryFromRecord r = Except.error e → ∀ c, applyInputRecord c r = c) := by
  refine ⟨?_, ?_⟩
  · rcases hk with hk | hk <;>
      rcases hra : r.amount with _ | v <;>
        simp [Transaction.tryFromRecord, hk, hra, NonZero.tryFrom] <;>
          by_cases hv : 0 < v <;> simp [hv]
  · intro e he c
    unfold applyInputRecord
    rw [he]

theorem claim_c9_witness :
    ((∃ t, Transaction.tryFromRecord
        { kind := Kind.deposit, client := 1, tx := 1, amount := some (-3) } = Except.ok t) ↔
      (∃ v, ({ kind := Kind.deposit, client := 1, tx := 1, amount := some (-3) } :
        InputRecord).amount = some v ∧ 0 < v)) ∧
    applyInputRecord (Client.new 1)
      { kind := Kind.deposit, client := 1, tx := 1, amount := some (-3) } = Client.new 1 :=
  ⟨(claim_c9 { kind := Kind.deposit, client := 1, tx := 1, amount := some (-3) }
      (Or.inl rfl)).1,
   (claim_c9 { kind := Kind.deposit, client := 1, tx := 1, amount := some (-3) }
      (Or.inl rfl)).2 CsvError.depositMustHaveNonZeroAmount (by rfl) (Client.new 1)⟩

/-- Claim C10: `AmountCache::insert` on an id that is already present returns
the `AlreadyExists` error, but only after replacing the stored value - the
cache afterwards maps the id to the newly supplied amount. -/
theorem claim_c10 (m : AmountMap) (id : Nat) (a old : Int) (h : m id = some old) :
    (AmountCache.insert m id a).2 = some CacheError.alreadyExists ∧
    (AmountCache.insert m id a).1 id = some a := by
  constructor
  · show (match m id with
      | some _ => some CacheError.alreadyExists
      | none => none) = some CacheError.alreadyExists
    rw [h]
  · show (if id = id then some a else m id) = some a
    simp

theorem claim_c10_witness :
    (AmountCache.insert (mapInsert AmountMap.empty 3 5) 3 9).2 =
      some CacheError.alreadyExists ∧
    (AmountCache.insert (mapInsert AmountMap.empty 3 5) 3 9).1 3 = some 9 :=
  claim_c10 (mapInsert AmountMap.empty 3 5) 3 9 5 (by decide)
